import Mathlib

/-!
Verification development for the docgen2 document-assembly service.

The Go core is embedded shallowly:

* `Val` / `goFmt` model the dynamic prop values (`map[string]interface{}`)
  and Go's `fmt.Sprintf("%v", value)` formatting of them.
* `escapeChar` / `EscapeString` model `html.EscapeString`.
* `replacePass` models the single-pass, argument-order semantics of
  `strings.NewReplacer(...).Replace`.
* `RenderComponent` models `docgen.RenderComponent`.
* `XNode`, `bodyOf`, `splice` model the etree document tree, the
  `FindElement("//w:body")` lookup and the body-append mutation.
* `addComponentToBody`, `processBody`, `assembleTree`, `AssembleDocument`
  model `Engine.addComponentToBody` / `Engine.AssembleDocument`.
* `ToBytes` models `InMemoryDocx.ToBytes` (zip serialization of the entry
  sequence in map-iteration order).
* `Validate` models `validator.Validate`, i.e. CUE unification of a plan
  with `#DocumentPlan` from `assets/schemas/rules.cue`.
* The heap-instrumented `CloneH` / `AssembleDocumentH` make byte-buffer
  allocation explicit in order to state the no-aliasing / no-mutation
  claims about `InMemoryDocx.Clone`.

Braces inside string literals are written with the escapes \x7b and \x7d.
-/

set_option maxRecDepth 100000

/-- Values of the dynamic JSON-like prop map (`map[string]interface{}` in Go).
JSON numbers are modeled as integers; their exact formatting is inessential
to every claim treated here. Object fields are kept in a list; Go's `fmt`
prints map keys in sorted order, so a `vobj` list is assumed key-sorted. -/
inductive Val where
  | vstr (s : String)
  | vnum (n : Int)
  | vbool (b : Bool)
  | vnull
  | varr (vs : List Val)
  | vobj (fields : List (String × Val))

mutual

/-- Model of Go's `fmt.Sprintf("%v", value)` on the JSON-decoded values that
can occur in a props map: strings print verbatim, arrays as `[a b c]`, maps
as `map[k1:v1 k2:v2]`, `nil` as `<nil>`. -/
def goFmt : Val → String
  | .vstr s => s
  | .vnum n => toString n
  | .vbool b => if b then "true" else "false"
  | .vnull => "<nil>"
  | .varr vs => "[" ++ goFmtArr vs ++ "]"
  | .vobj fs => "map[" ++ goFmtObj fs ++ "]"

/-- Space-separated element list of a `%v`-printed slice. -/
def goFmtArr : List Val → String
  | [] => ""
  | [v] => goFmt v
  | v :: rest => goFmt v ++ " " ++ goFmtArr rest

/-- Space-separated `key:value` list of a `%v`-printed map. -/
def goFmtObj : List (String × Val) → String
  | [] => ""
  | [(k, v)] => k ++ ":" ++ goFmt v
  | (k, v) :: rest => k ++ ":" ++ goFmt v ++ " " ++ goFmtObj rest

end

/-- Per-character replacement table of Go's `html.EscapeString`: it replaces
`&` with `&amp;`, `'` with `&#39;`, `<` with `&lt;`, `>` with `&gt;` and
`"` with `&#34;`, leaving every other character unchanged. -/
def escapeChar (c : Char) : List Char :=
  if c = '&' then "&amp;".data
  else if c = '\'' then "&#39;".data
  else if c = '<' then "&lt;".data
  else if c = '>' then "&gt;".data
  else if c = '"' then "&#34;".data
  else [c]

/-- Character-list form of `html.EscapeString`. -/
def escapeList (s : List Char) : List Char :=
  match s with
  | [] => []
  | c :: rest => escapeChar c ++ escapeList rest

/-- Model of Go's `html.EscapeString` (the escaping used by
`RenderComponent` before substituting a prop value). -/
def EscapeString (s : String) : String :=
  ⟨escapeList s.data⟩

/-- Placeholder built for a props key by `RenderComponent`:
Go's `fmt.Sprintf("\x7b\x7b %s \x7d\x7d", key)` — the braces, exactly one
space on each side of the key. -/
def placeholderOf (key : String) : String :=
  "\x7b\x7b " ++ key ++ " \x7d\x7d"

/-- Single left-to-right pass of Go's `strings.Replacer`: at each position
the pattern list is consulted in argument order; the first pattern that is
a prefix of the remaining input is replaced and the input advances past the
matched text (so replacement text is never rescanned); otherwise one
character is emitted unchanged. -/
def replaceFuel (pairs : List (List Char × List Char)) : Nat → List Char → List Char
  | _, [] => []
  | 0, s => s
  | fuel + 1, c :: rest =>
    match pairs.find? (fun p => p.1.isPrefixOf (c :: rest)) with
    | some p => p.2 ++ replaceFuel pairs fuel (List.drop (p.1.length - 1) rest)
    | none => c :: replaceFuel pairs fuel rest

/-- Entry point of the pass; a fuel of `s.length` always suffices because at
least one character of the input is consumed per step (every pattern built
by `RenderComponent` is nonempty). -/
def replacePass (pairs : List (List Char × List Char)) (s : List Char) : List Char :=
  replaceFuel pairs s.length s

/-- Model of `docgen.RenderComponent`: with an empty props map the template
is returned as-is; otherwise a replacement pair
`("\x7b\x7b key \x7d\x7d", html.EscapeString(fmt.Sprintf("%v", value)))`
is built per props entry (the list order standing for Go's map iteration
order) and applied by a `strings.Replacer` in a single pass. -/
def RenderComponent (template : String) (props : List (String × Val)) : String :=
  if props.isEmpty then template
  else
    let replacements := props.map (fun kv => ((placeholderOf kv.1).data, (EscapeString (goFmt kv.2)).data))
    ⟨replacePass replacements template.data⟩

/-- Element tree of the parsed `word/document.xml` (the etree node model:
elements with a tag, attributes and ordered children, and text nodes). -/
inductive XNode where
  | elem (tag : String) (attrs : List (String × String)) (children : List XNode)
  | text (s : String)

mutual

/-- Model of `doc.FindElement("//w:body")` followed by reading the found
element's children: the child list of the first element whose tag is
`w:body`, in document (depth-first, left-to-right) order; `none` when the
tree has no such element. -/
def bodyOf : XNode → Option (List XNode)
  | .text _ => none
  | .elem tag _ children =>
    if tag = "w:body" then some children else bodyOfL children

/-- List half of `bodyOf`: first `w:body` inside any node of the list. -/
def bodyOfL : List XNode → Option (List XNode)
  | [] => none
  | c :: rest =>
    match bodyOf c with
    | some r => some r
    | none => bodyOfL rest

end

mutual

/-- Model of `body.AddChild(...)` repeated for a batch of nodes: append
`ns` to the children of the first `w:body` element (the element
`FindElement("//w:body")` returns); `none` when the tree has no body. -/
def splice (ns : List XNode) : XNode → Option XNode
  | .text _ => none
  | .elem tag attrs children =>
    if tag = "w:body" then some (.elem tag attrs (children ++ ns))
    else
      match spliceL ns children with
      | some cs => some (.elem tag attrs cs)
      | none => none

/-- List half of `splice`: rebuild the first child subtree containing a
`w:body`, leaving the siblings untouched. -/
def spliceL (ns : List XNode) : List XNode → Option (List XNode)
  | [] => none
  | c :: rest =>
    match splice ns c with
    | some c1 => some (c1 :: rest)
    | none =>
      match spliceL ns rest with
      | some rest1 => some (c :: rest1)
      | none => none

end

/-- ComponentInstance of `internal/docgen/types.go`: a component name and
its props map (list order standing for Go's map iteration order). -/
structure ComponentInstance where
  component : String
  props : List (String × Val)

/-- DocProps of `internal/docgen/types.go`. -/
structure DocProps where
  filename : String

/-- DocumentPlan of `internal/docgen/types.go`. -/
structure DocumentPlan where
  docProps : DocProps
  body : List ComponentInstance

/-- Errors surfaced by the assembly path (`DocGenError` /
`ComponentNotFoundError` and the wrapped etree failures). -/
inductive AErr where
  | componentNotFound (name : String)
  | fragmentParseFailed (name : String)
  | noDocumentXml
  | docParseFailed
  | noBody
deriving DecidableEq

/-- Model of `Engine.GetComponent`: exact-match lookup in the loaded
component map, `ComponentNotFoundError` when absent. -/
def GetComponent (components : List (String × String)) (componentName : String) :
    Except AErr String :=
  match List.lookup componentName components with
  | some template => Except.ok template
  | none => Except.error (AErr.componentNotFound componentName)

/-- Namespace-declaring wrapper placed around a rendered fragment before
parsing it (`addComponentToBody`'s `wrappedXML`), verbatim from the Go
format string. -/
def wrapXml (renderedXML : String) : String :=
  "<temp xmlns:w=\"http://schemas.openxmlformats.org/wordprocessingml/2006/main\" xmlns:mc=\"http://schemas.openxmlformats.org/markup-compatibility/2006\" xmlns:wp=\"http://schemas.openxmlformats.org/drawingml/2006/wordprocessingDrawing\" xmlns:wp14=\"http://schemas.microsoft.com/office/word/2010/wordprocessingDrawing\" xmlns:a=\"http://schemas.openxmlformats.org/drawingml/2006/main\" xmlns:wps=\"http://schemas.microsoft.com/office/word/2010/wordprocessingShape\" xmlns:a14=\"http://schemas.microsoft.com/office/drawing/2010/main\" xmlns:v=\"urn:schemas-microsoft-com:vml\" xmlns:w10=\"urn:schemas-microsoft-com:office:word\" xmlns:o=\"urn:schemas-microsoft-com:office:office\">"
    ++ renderedXML ++ "</temp>"

/-- External etree collaborator, passed in explicitly (the repository calls
the `beevik/etree` library; only the conversions between byte strings and
node trees are abstracted — the tree operations themselves are modeled
concretely above). `parseDoc` stands for `doc.ReadFromBytes`,
`parseFragment` for `ReadFromString` on the wrapped fragment followed by
`Root().ChildElements()` with a `Copy()` of each child, and `writeDoc` for
`doc.Indent(2); doc.WriteToBytes()`. -/
structure Etree where
  parseDoc : List Nat → Option XNode
  parseFragment : String → Option (List XNode)
  writeDoc : XNode → List Nat

/-- Model of `Engine.addComponentToBody`, returning the element batch that
the Go code appends to the body: look up the template, render it against
the instance's (full) props map, parse the wrapped fragment, and hand back
the fragment's top-level elements. A `nil` root (empty fragment) yields an
empty batch, as in the Go code. -/
def addComponentToBody (components : List (String × String))
    (parseFragment : String → Option (List XNode)) (inst : ComponentInstance) :
    Except AErr (List XNode) :=
  match GetComponent components inst.component with
  | Except.error e => Except.error e
  | Except.ok template =>
    let renderedXML := RenderComponent template inst.props
    match parseFragment (wrapXml renderedXML) with
    | none => Except.error (AErr.fragmentParseFailed inst.component)
    | some childElems => Except.ok childElems

/-- The `for _, componentInstance := range plan.Body` loop of
`AssembleDocument`: process the instances in plan order, aborting on the
first failure; the concatenation of the returned batches is what ends up
appended to the body. -/
def processBody (components : List (String × String))
    (parseFragment : String → Option (List XNode)) :
    List ComponentInstance → Except AErr (List XNode)
  | [] => Except.ok []
  | inst :: rest =>
    match addComponentToBody components parseFragment inst with
    | Except.error e => Except.error e
    | Except.ok ns =>
      match processBody components parseFragment rest with
      | Except.error e => Except.error e
      | Except.ok more => Except.ok (ns ++ more)

/-- Tree-level core of `AssembleDocument`: check that the parsed document
has a `w:body` (fatal error otherwise), process the plan's body, and
append all rendered elements to that body. The final `none` branch is
unreachable whenever the `bodyOf` check passed (`splice_of_bodyOf`). -/
def assembleTree (components : List (String × String))
    (parseFragment : String → Option (List XNode)) (doc : XNode)
    (body : List ComponentInstance) : Except AErr XNode :=
  match bodyOf doc with
  | none => Except.error AErr.noBody
  | some _ =>
    match processBody components parseFragment body with
    | Except.error e => Except.error e
    | Except.ok ns =>
      match splice ns doc with
      | some doc2 => Except.ok doc2
      | none => Except.error AErr.noBody

/-- InMemoryDocx of `types.go`: a map from zip entry path to raw bytes.
The list order stands for the (unspecified) iteration order Go's `range`
uses on the map in a particular run; equal-up-to-permutation lists denote
the same map. Bytes are modeled as naturals. -/
abbrev InMemoryDocx := List (String × List Nat)

/-- Model of `InMemoryDocx.Clone`: a deep copy. On immutable values the
copy is the identity; the buffer-freshness content of `Clone` is made
explicit in the heap-instrumented `CloneH` below. -/
def Clone (shell : InMemoryDocx) : InMemoryDocx :=
  shell

/-- Byte encoding of a path string (UTF-8 code points; injective, which is
all the zip container needs of it here). -/
def strBytes (s : String) : List Nat :=
  s.data.map Char.toNat

/-- Single zip entry as written by `zipWriter.Create` + `Write`:
the entry's local header carries the path and the sizes, then the data
follows. The length-prefixed layout keeps the encoding injective, exactly
as distinct entry sequences produce distinct zip streams. -/
def encodeEntry (e : String × List Nat) : List Nat :=
  (strBytes e.1).length :: (strBytes e.1 ++ e.2.length :: e.2)

/-- Model of `InMemoryDocx.ToBytes`: serialize the entries in map-iteration
order (`for path, content := range shell`) into one byte stream. The
output is a function of the entry sequence alone — no timestamps and no
random identifiers enter it. -/
def ToBytes (shell : InMemoryDocx) : List Nat :=
  (shell.map encodeEntry).flatten

/-- Map assignment `workingDoc["word/document.xml"] = modifiedXML`:
replace the value stored at the key (append when absent, which cannot
happen on the assembly path since the key was just looked up). -/
def setEntry (shell : InMemoryDocx) (key : String) (value : List Nat) : InMemoryDocx :=
  match shell with
  | [] => [(key, value)]
  | (p, c) :: rest => if p = key then (key, value) :: rest else (p, c) :: setEntry rest key value

/-- Model of `Engine.AssembleDocument`: clone the shell, fetch and parse
`word/document.xml`, locate the body, render and append every component of
the plan in order, re-serialize the tree into the working copy and zip the
result. -/
def AssembleDocument (shell : InMemoryDocx) (components : List (String × String))
    (et : Etree) (plan : DocumentPlan) : Except AErr (List Nat) :=
  let workingDoc := Clone shell
  match List.lookup "word/document.xml" workingDoc with
  | none => Except.error AErr.noDocumentXml
  | some documentXML =>
    match et.parseDoc documentXML with
    | none => Except.error AErr.docParseFailed
    | some doc =>
      match assembleTree components et.parseFragment doc plan.body with
      | Except.error e => Except.error e
      | Except.ok doc2 =>
        Except.ok (ToBytes (setEntry workingDoc "word/document.xml" (et.writeDoc doc2)))

/-- Engine of `types.go`: the canonical shell and the component library. -/
structure Engine where
  shell : InMemoryDocx
  components : List (String × String)

/-- Model of `Engine.Assemble` (which just forwards to
`AssembleDocument`). -/
def Engine.Assemble (e : Engine) (et : Etree) (plan : DocumentPlan) : Except AErr (List Nat) :=
  AssembleDocument e.shell e.components et plan

/-- Component names accepted by `#AllComponentNames` in
`assets/schemas/rules.cue`. -/
def AllComponentNames : List String :=
  ["DocumentCategoryTitle", "DocumentTitle", "DocumentSubject", "TestBlock", "AuthorBlock"]

/-- Decision procedure for the anchored CUE pattern
`^DOC-\d{4,}, Rev [A-Z]$` constraining `document_subject`. -/
def matchDocSubject (s : String) : Bool :=
  match s.data with
  | 'D' :: 'O' :: 'C' :: '-' :: rest =>
    let ds := rest.takeWhile Char.isDigit
    let tail := rest.dropWhile Char.isDigit
    decide (4 ≤ ds.length) &&
      match tail with
      | [',', ' ', 'R', 'e', 'v', ' ', c] => 'A' ≤ c && c ≤ 'Z'
      | _ => false
  | _ => false

/-- Helper: a string made of ASCII digits only. -/
def allDigits (s : String) : Bool :=
  s.data.all Char.isDigit

/-- Decision procedure for the anchored CUE pattern
`^\d{1,2}/\d{1,2}/\d{4}$` constraining `test_date`. -/
def matchTestDate (s : String) : Bool :=
  match s.splitOn "/" with
  | [m, d, y] =>
    allDigits m && decide (1 ≤ m.length) && decide (m.length ≤ 2) &&
    allDigits d && decide (1 ≤ d.length) && decide (d.length ≤ 2) &&
    allDigits y && decide (y.length = 4)
  | _ => false

/-- Required field `k: string & !=""` of a props struct. -/
def reqNonEmptyStr (props : List (String × Val)) (k : String) : Bool :=
  match List.lookup k props with
  | some (Val.vstr s) => !(s == "")
  | _ => false

/-- Required field `k: string` (empty allowed). -/
def reqStr (props : List (String × Val)) (k : String) : Bool :=
  match List.lookup k props with
  | some (Val.vstr _) => true
  | _ => false

/-- Optional field `k?: string`: absent, or present with a string value. -/
def optStr (props : List (String × Val)) (k : String) : Bool :=
  match List.lookup k props with
  | none => true
  | some (Val.vstr _) => true
  | _ => false

/-- Required field constrained by an anchored pattern. -/
def reqPattern (props : List (String × Val)) (k : String) (pat : String → Bool) : Bool :=
  match List.lookup k props with
  | some (Val.vstr s) => pat s
  | _ => false

/-- Required field constrained to an enumeration of string literals. -/
def reqEnum (props : List (String × Val)) (k : String) (lits : List String) : Bool :=
  match List.lookup k props with
  | some (Val.vstr s) => lits.contains s
  | _ => false

/-- Per-component prop contract of `#ComponentInstance` in `rules.cue`
(the `if component == ...` refinements). The props struct is open
(`props: {...}`), so keys beyond the contract are allowed. -/
def checkProps (name : String) (props : List (String × Val)) : Bool :=
  if name == "DocumentCategoryTitle" then
    reqNonEmptyStr props "category_title"
  else if name == "DocumentTitle" then
    reqNonEmptyStr props "document_title"
  else if name == "DocumentSubject" then
    reqPattern props "document_subject" matchDocSubject
  else if name == "TestBlock" then
    reqNonEmptyStr props "tester_name" &&
    reqPattern props "test_date" matchTestDate &&
    reqNonEmptyStr props "serial_number" &&
    reqEnum props "test_result" ["PASS", "FAIL", "INCOMPLETE"] &&
    reqStr props "additional_info"
  else if name == "AuthorBlock" then
    reqNonEmptyStr props "author_name" &&
    reqNonEmptyStr props "company_name" &&
    reqNonEmptyStr props "address_line1" &&
    optStr props "address_line2" &&
    reqNonEmptyStr props "city_state_zip" &&
    reqNonEmptyStr props "phone" &&
    optStr props "fax" &&
    reqNonEmptyStr props "website"
  else
    false

/-- Element check of `body: [...#ComponentInstance]`: a closed struct with
exactly the fields `component` (one of `#AllComponentNames`) and `props`
(a struct satisfying the component's contract). -/
def checkInstance (v : Val) : Bool :=
  match v with
  | Val.vobj fields =>
    fields.all (fun f => f.1 == "component" || f.1 == "props") &&
    (match List.lookup "component" fields with
     | some (Val.vstr name) =>
       AllComponentNames.contains name &&
       (match List.lookup "props" fields with
        | some (Val.vobj props) => checkProps name props
        | _ => false)
     | _ => false)
  | _ => false

/-- Check of the optional `doc_props?: { filename?: string, ... }` field
(an open struct, so any further keys pass). -/
def checkDocProps (v : Val) : Bool :=
  match v with
  | Val.vobj fields =>
    match List.lookup "filename" fields with
    | none => true
    | some (Val.vstr _) => true
    | _ => false
  | _ => false

/-- Model of `validator.Validate`: the `Valid` boolean of unifying the
JSON-decoded plan with the closed definition `#DocumentPlan` of
`assets/schemas/rules.cue` and validating the result with
`cue.Concrete(true)`. A plan that is not a struct, has a field outside
`doc_props` / `body`, lacks `body`, or contains a body element violating
`#ComponentInstance` fails; everything else passes. -/
def Validate (plan : Val) : Bool :=
  match plan with
  | Val.vobj fields =>
    fields.all (fun f => f.1 == "doc_props" || f.1 == "body") &&
    (match List.lookup "doc_props" fields with
     | none => true
     | some dp => checkDocProps dp) &&
    (match List.lookup "body" fields with
     | some (Val.varr insts) => insts.all checkInstance
     | _ => false)
  | _ => false

/-- Heap of allocated byte buffers; an address is an index into `bufs`.
Buffers are only ever appended by the operations below, which is exactly
the discipline the no-mutation claims assert. -/
structure Heap where
  bufs : List (List Nat)

/-- Allocate a fresh buffer holding `b` (Go's `make([]byte, ...)` + `copy`
or a freshly produced slice), returning its address. -/
def halloc (h : Heap) (b : List Nat) : Heap × Nat :=
  (⟨h.bufs ++ [b]⟩, h.bufs.length)

/-- Read the buffer at an address (assembly only dereferences addresses
held by a live map, which are always in range). -/
def deref (h : Heap) (a : Nat) : List Nat :=
  h.bufs.getD a []

/-- Shell map with explicit buffer addresses instead of inline bytes. -/
abbrev DocxRef := List (String × Nat)

/-- Heap-instrumented model of `InMemoryDocx.Clone`: for every entry of the
source map, allocate a fresh buffer, copy the source bytes into it, and
map the same path to the fresh address — new byte buffers for every entry,
never aliasing the source's. -/
def CloneH (h : Heap) (shell : DocxRef) : Heap × DocxRef :=
  match shell with
  | [] => (h, [])
  | (p, a) :: rest =>
    let (h1, a1) := halloc h (deref h a)
    let (h2, rest1) := CloneH h1 rest
    (h2, (p, a1) :: rest1)

/-- Map assignment on a `DocxRef` (re-point the key at a new address). -/
def setRef (shell : DocxRef) (key : String) (a : Nat) : DocxRef :=
  match shell with
  | [] => [(key, a)]
  | (p, b) :: rest => if p = key then (key, a) :: rest else (p, b) :: setRef rest key a

/-- Heap-instrumented model of `Engine.AssembleDocument`: identical control
flow to `AssembleDocument`, with every byte buffer explicit in the heap.
The request-local clone allocates fresh buffers; the only write back
(`workingDoc["word/document.xml"] = modifiedXML`) allocates another fresh
buffer and re-points the clone's map entry — no pre-existing buffer is
ever written. -/
def AssembleDocumentH (h : Heap) (shell : DocxRef) (components : List (String × String))
    (et : Etree) (plan : DocumentPlan) : Heap × Except AErr (List Nat) :=
  let (h1, workingDoc) := CloneH h shell
  match List.lookup "word/document.xml" workingDoc with
  | none => (h1, Except.error AErr.noDocumentXml)
  | some addr =>
    match et.parseDoc (deref h1 addr) with
    | none => (h1, Except.error AErr.docParseFailed)
    | some doc =>
      match assembleTree components et.parseFragment doc plan.body with
      | Except.error e => (h1, Except.error e)
      | Except.ok doc2 =>
        let (h2, maddr) := halloc h1 (et.writeDoc doc2)
        let working2 := setRef workingDoc "word/document.xml" maddr
        (h2, Except.ok (ToBytes (working2.map (fun pa => (pa.1, deref h2 pa.2)))))

/-- Output discipline of `html.EscapeString`-escaped text when placed into
XML text content: none of the raw markup characters `<`, `>`, `"`, `'`
occur, and every `&` begins one of the five entities the escaper emits. -/
def wellEscaped : List Char → Bool
  | [] => true
  | '&' :: 'a' :: 'm' :: 'p' :: ';' :: r => wellEscaped r
  | '&' :: 'l' :: 't' :: ';' :: r => wellEscaped r
  | '&' :: 'g' :: 't' :: ';' :: r => wellEscaped r
  | '&' :: '#' :: '3' :: '4' :: ';' :: r => wellEscaped r
  | '&' :: '#' :: '3' :: '9' :: ';' :: r => wellEscaped r
  | '&' :: _ => false
  | '<' :: _ => false
  | '>' :: _ => false
  | '"' :: _ => false
  | '\'' :: _ => false
  | _ :: r => wellEscaped r

/-- XML entity decoding of text content (what a conforming XML parser
makes of the five entities the escaper emits): used to state the spec's
round-trip property — escaped prop text parses back to the literal
value. -/
def unescapeList : List Char → List Char
  | [] => []
  | '&' :: 'a' :: 'm' :: 'p' :: ';' :: r => '&' :: unescapeList r
  | '&' :: 'l' :: 't' :: ';' :: r => '<' :: unescapeList r
  | '&' :: 'g' :: 't' :: ';' :: r => '>' :: unescapeList r
  | '&' :: '#' :: '3' :: '4' :: ';' :: r => '"' :: unescapeList r
  | '&' :: '#' :: '3' :: '9' :: ';' :: r => '\'' :: unescapeList r
  | c :: r => c :: unescapeList r

/-! Concrete inputs used by the counterexamples and witnesses below. -/

/-- Component library for the children counterexample: a parent template
and a child template, both valid single-paragraph fragments. -/
def c1Components : List (String × String) :=
  [("Parent", "<w:p>parent</w:p>"), ("Child", "<w:p>child</w:p>")]

/-- Element the parent fragment parses to. -/
def c1ParentElem : XNode := XNode.elem "w:p" [] [XNode.text "parent"]

/-- Element the child fragment would parse to. -/
def c1ChildElem : XNode := XNode.elem "w:p" [] [XNode.text "child"]

/-- Fragment parser knowing both fragments (so a recursive child render,
had the assembler attempted one, would have succeeded). -/
def c1Pf (s : String) : Option (List XNode) :=
  if s = wrapXml "<w:p>parent</w:p>" then some [c1ParentElem]
  else if s = wrapXml "<w:p>child</w:p>" then some [c1ChildElem]
  else none

/-- Child ComponentInstance, as the JSON value sitting in the parent's
`props.children` array. -/
def c1ChildVal : Val := Val.vobj [("component", Val.vstr "Child"), ("props", Val.vobj [])]

/-- Parent instance whose props carry a `children` array naming the child. -/
def c1Parent : ComponentInstance := ⟨"Parent", [("children", Val.varr [c1ChildVal])]⟩

/-- Minimal shell document tree: a `w:document` holding an empty `w:body`. -/
def c1Doc : XNode := XNode.elem "w:document" [] [XNode.elem "w:body" [] []]

/-- Shell document bytes recognised by the counterexample parser. -/
def c2DocBytes : List Nat := [1]

/-- Etree collaborator for the determinism counterexample: parses the
shell's document bytes to `c1Doc` and serializes any tree to `[9]`. -/
def c2Et : Etree :=
  ⟨fun b => if b = c2DocBytes then some c1Doc else none, fun _ => none, fun _ => [9]⟩

/-- Empty-body plan used with the determinism counterexample (empty body
plans pass validation, see C3). -/
def c2Plan : DocumentPlan := ⟨⟨"out.docx"⟩, []⟩

/-- Two-entry shell map as one run's iteration order presents it. -/
def c2ShellA : InMemoryDocx := [("word/document.xml", c2DocBytes), ("word/styles.xml", [7])]

/-- The same shell map as another run's iteration order presents it. -/
def c2ShellB : InMemoryDocx := [("word/styles.xml", [7]), ("word/document.xml", c2DocBytes)]

/-- The plan `{"body": []}`. -/
def emptyBodyPlan : Val := Val.vobj [("body", Val.varr [])]

/-- Plan from `validator_test.go` (`MissingDocumentTitle`): a single
`DocumentSubject` instance and no `DocumentTitle` anywhere. -/
def missingTitlePlan : Val :=
  Val.vobj [("body", Val.varr
    [Val.vobj [("component", Val.vstr "DocumentSubject"),
               ("props", Val.vobj [("document_subject", Val.vstr "DOC-1234, Rev A")])]])]

/-- Template consisting of exactly the children placeholder. -/
def childrenTemplate : String := "\x7b\x7b children \x7d\x7d"

/-- Concrete children array (one child instance) used against
`childrenTemplate`. -/
def c5Children : Val := Val.varr [c1ChildVal]

/-- One-template component library for the order-preservation witness. -/
def w8Components : List (String × String) := [("T", "<w:p/>")]

/-- Element the `T` fragment parses to. -/
def w8Elem : XNode := XNode.elem "w:p" [] []

/-- Fragment parser for the order-preservation witness. -/
def w8Pf (s : String) : Option (List XNode) :=
  if s = wrapXml "<w:p/>" then some [w8Elem] else none

/-- Leaf instance of component `T` with no props. -/
def w8Inst : ComponentInstance := ⟨"T", []⟩

/-- Shell document tree whose body already has one pre-existing child. -/
def w8Doc : XNode := XNode.elem "w:document" [] [XNode.elem "w:body" [] [XNode.text "pre"]]

/-- Body instance naming an unknown component. -/
def c9wInstFields : List (String × Val) :=
  [("component", Val.vstr "Bogus"), ("props", Val.vobj [])]

/-- Plan whose single body instance names the unknown component. -/
def c9wPlanFields : List (String × Val) :=
  [("body", Val.varr [Val.vobj c9wInstFields])]

/-- Two-buffer heap for the no-mutation witness. -/
def w10Heap : Heap := ⟨[[1], [2]]⟩

/-- Shell reference pointing at the heap's first buffer. -/
def w10Shell : DocxRef := [("word/document.xml", 0)]

/-- Trivial etree collaborator for the no-mutation witness. -/
def w10Et : Etree := ⟨fun _ => none, fun _ => none, fun _ => []⟩

/-- Empty plan for the no-mutation witness. -/
def w10Plan : DocumentPlan := ⟨⟨""⟩, []⟩

/-- Decidable equality of assembly results (used to evaluate the
determinism counterexample). -/
instance : DecidableEq (Except AErr (List Nat)) := fun a b =>
  match a, b with
  | .ok x, .ok y =>
    if h : x = y then .isTrue (by rw [h]) else .isFalse (fun hc => h (Except.ok.inj hc))
  | .error x, .error y =>
    if h : x = y then .isTrue (by rw [h]) else .isFalse (fun hc => h (Except.error.inj hc))
  | .ok _, .error _ => .isFalse (fun hc => Except.noConfusion hc)
  | .error _, .ok _ => .isFalse (fun hc => Except.noConfusion hc)

/-- Eta for strings: rebuilding a string from its character data is the
identity. -/
theorem strMk_data (s : String) : String.mk s.data = s := rfl

/-- Reflexivity of the Boolean prefix test. -/
theorem isPrefixOf_self (l : List Char) : l.isPrefixOf l = true := by
  simp [List.isPrefixOf_iff_prefix]

/-- A pattern longer than the input is never a prefix of it. -/
theorem isPrefixOf_false_of_longer {p l : List Char} (h : l.length < p.length) :
    p.isPrefixOf l = false := by
  rw [Bool.eq_false_iff]
  intro hc
  have := (List.isPrefixOf_iff_prefix.mp hc).length_le
  omega

/-- The replacer pass on the empty input is empty, whatever the fuel. -/
theorem replaceFuel_nil (pairs : List (List Char × List Char)) (fuel : Nat) :
    replaceFuel pairs fuel [] = [] := by
  cases fuel <;> rfl

/-- When every pattern is longer than the input, the pass changes
nothing: no position can match. -/
theorem replaceFuel_no_match (pairs : List (List Char × List Char)) :
    ∀ (fuel : Nat) (s : List Char), (∀ p ∈ pairs, s.length < p.1.length) →
      replaceFuel pairs fuel s = s := by
  intro fuel
  induction fuel with
  | zero => intro s _; cases s <;> rfl
  | succ n ih =>
    intro s h
    cases s with
    | nil => rfl
    | cons c rest =>
      have hf : pairs.find? (fun p => p.1.isPrefixOf (c :: rest)) = none := by
        apply List.find?_eq_none.mpr
        intro p hp
        simp [isPrefixOf_false_of_longer (h p hp)]
      rw [replaceFuel, hf]
      rw [ih rest (fun p hp => Nat.lt_of_le_of_lt (Nat.le_succ _) (h p hp))]

/-- A template that is exactly the (sole) pattern is replaced in full by
the replacement text, which is emitted verbatim and never rescanned. -/
theorem replacePass_self (pat rep : List Char) (h : pat ≠ []) :
    replacePass [(pat, rep)] pat = rep := by
  obtain ⟨c, rest, rfl⟩ := List.exists_cons_of_ne_nil h
  show replaceFuel [(c :: rest, rep)] (c :: rest).length (c :: rest) = rep
  rw [List.length_cons, replaceFuel]
  rw [List.find?_cons_of_pos _ (by simp [isPrefixOf_self])]
  simp [replaceFuel_nil, List.drop_length]

/-- Character data of the placeholder built for a key. -/
theorem placeholderOf_data (k : String) :
    (placeholderOf k).data = "\x7b\x7b ".data ++ k.data ++ " \x7d\x7d".data := by
  unfold placeholderOf
  rw [String.data_append, String.data_append]

/-- Placeholders are never empty. -/
theorem placeholderOf_ne_nil (k : String) : (placeholderOf k).data ≠ [] := by
  rw [placeholderOf_data]
  intro h
  have := congrArg List.length h
  simp at this

/-- Rendering a template that is exactly `\x7b\x7b key \x7d\x7d` against a
single-entry props map substitutes the escaped stringified value — and
nothing more: the value is emitted verbatim even if it itself contains a
placeholder token, because the pass never rescans replacement text. -/
theorem render_single (k : String) (v : Val) :
    RenderComponent (placeholderOf k) [(k, v)] = EscapeString (goFmt v) := by
  unfold RenderComponent
  rw [if_neg (by simp)]
  show String.mk (replacePass [((placeholderOf k).data, (EscapeString (goFmt v)).data)]
    (placeholderOf k).data) = _
  rw [replacePass_self _ _ (placeholderOf_ne_nil k), strMk_data]

/-- Rendering leaves a brace-hugging `\x7b\x7bkey\x7d\x7d` (no interior
spaces) untouched: the only pattern the replacer knows is two characters
longer than the whole template, so no position can match. -/
theorem render_nowhitespace (k : String) (v : Val) :
    RenderComponent ("\x7b\x7b" ++ k ++ "\x7d\x7d") [(k, v)] = "\x7b\x7b" ++ k ++ "\x7d\x7d" := by
  unfold RenderComponent
  rw [if_neg (by simp)]
  show String.mk (replaceFuel _ _ _) = _
  rw [String.data_append, String.data_append]
  rw [replaceFuel_no_match]
  · exact strMk_data _
  · intro p hp
    simp only [List.map_cons, List.map_nil, List.mem_cons, List.not_mem_nil, or_false] at hp
    rw [hp, placeholderOf_data]
    simp only [List.length_append, List.length_cons, List.length_nil]
    omega

set_option maxHeartbeats 1600000 in
/-- A character that is not one of the five escaped characters passes
through the escaping discipline unexamined. -/
theorem wellEscaped_cons_other {c : Char} (h1 : c ≠ '&') (h2 : c ≠ '<') (h3 : c ≠ '>')
    (h4 : c ≠ '"') (h5 : c ≠ '\'') (r : List Char) :
    wellEscaped (c :: r) = wellEscaped r := by
  conv_lhs => rw [wellEscaped.eq_def]
  split <;> simp_all

/-- Escaped text satisfies the output discipline: the escaper emits raw
characters only outside `&<>"'` and the five entities otherwise. -/
theorem escape_wellEscaped (l : List Char) : wellEscaped (escapeList l) = true := by
  induction l with
  | nil => rfl
  | cons c rest ih =>
    rw [escapeList]
    unfold escapeChar
    split_ifs with h1 h2 h3 h4 h5
    · subst h1; exact ih
    · subst h2; exact ih
    · subst h3; exact ih
    · subst h4; exact ih
    · subst h5; exact ih
    · rw [List.singleton_append, wellEscaped_cons_other h1 h3 h4 h5 h2]
      exact ih

set_option maxHeartbeats 1600000 in
/-- A character other than `&` opens no entity, so decoding passes it
through. -/
theorem unescape_cons_other {c : Char} (h1 : c ≠ '&') (r : List Char) :
    unescapeList (c :: r) = c :: unescapeList r := by
  conv_lhs => rw [unescapeList.eq_def]
  split <;> simp_all

/-- Round trip: entity-decoding the escaped text recovers the original
value exactly — a prop value containing `<`, `&` or `>` survives as text
content, never as markup. -/
theorem unescape_escape (l : List Char) : unescapeList (escapeList l) = l := by
  induction l with
  | nil => rfl
  | cons c rest ih =>
    rw [escapeList]
    unfold escapeChar
    split_ifs with h1 h2 h3 h4 h5
    · subst h1; show '&' :: unescapeList (escapeList rest) = _; rw [ih]
    · subst h2; show '\'' :: unescapeList (escapeList rest) = _; rw [ih]
    · subst h3; show '<' :: unescapeList (escapeList rest) = _; rw [ih]
    · subst h4; show '>' :: unescapeList (escapeList rest) = _; rw [ih]
    · subst h5; show '"' :: unescapeList (escapeList rest) = _; rw [ih]
    · rw [List.singleton_append, unescape_cons_other h1, ih]

mutual

/-- A tree without a `w:body` is left alone by `splice` (no element to
append to). -/
theorem splice_none_of_bodyOf_none : ∀ (t : XNode) (ns : List XNode),
    bodyOf t = none → splice ns t = none
  | .text _ => by intro ns _; rfl
  | .elem tag attrs children => by
    intro ns h
    rw [bodyOf] at h
    rw [splice]
    by_cases htag : tag = "w:body"
    · rw [if_pos htag] at h; exact absurd h (by simp)
    · rw [if_neg htag] at h
      rw [if_neg htag, spliceL_none_of_bodyOfL_none children ns h]

/-- List half of `splice_none_of_bodyOf_none`. -/
theorem spliceL_none_of_bodyOfL_none : ∀ (l : List XNode) (ns : List XNode),
    bodyOfL l = none → spliceL ns l = none
  | [] => by intro ns _; rfl
  | c :: rest => by
    intro ns h
    rw [bodyOfL] at h
    rw [spliceL]
    cases hc : bodyOf c with
    | some r => rw [hc] at h; exact absurd h (by simp)
    | none =>
      rw [hc] at h
      rw [splice_none_of_bodyOf_none c ns hc, spliceL_none_of_bodyOfL_none rest ns h]

end

mutual

/-- Appending to the body: when the tree has a `w:body` with children
`cs`, `splice` succeeds and the new tree's body holds `cs ++ ns` — the
appended batch lands after the body's pre-existing children, and nothing
else of the tree changes the body lookup. -/
theorem splice_of_bodyOf : ∀ (t : XNode) (ns cs : List XNode), bodyOf t = some cs →
    ∃ t1, splice ns t = some t1 ∧ bodyOf t1 = some (cs ++ ns)
  | .text _ => by intro ns cs h; exact absurd h (by rw [bodyOf]; simp)
  | .elem tag attrs children => by
    intro ns cs h
    rw [bodyOf] at h
    by_cases htag : tag = "w:body"
    · rw [if_pos htag] at h
      obtain rfl : children = cs := by simpa using h
      refine ⟨.elem tag attrs (children ++ ns), ?_, ?_⟩
      · rw [splice, if_pos htag]
      · rw [bodyOf, if_pos htag]
    · rw [if_neg htag] at h
      obtain ⟨cs1, hsp, hb⟩ := spliceL_of_bodyOfL children ns cs h
      refine ⟨.elem tag attrs cs1, ?_, ?_⟩
      · rw [splice, if_neg htag, hsp]
      · rw [bodyOf, if_neg htag]; exact hb

/-- List half of `splice_of_bodyOf`. -/
theorem spliceL_of_bodyOfL : ∀ (l : List XNode) (ns cs : List XNode), bodyOfL l = some cs →
    ∃ l1, spliceL ns l = some l1 ∧ bodyOfL l1 = some (cs ++ ns)
  | [] => by intro ns cs h; exact absurd h (by rw [bodyOfL]; simp)
  | c :: rest => by
    intro ns cs h
    rw [bodyOfL] at h
    cases hc : bodyOf c with
    | some r =>
      rw [hc] at h
      obtain rfl : r = cs := by simpa using h
      obtain ⟨c1, hs, hb⟩ := splice_of_bodyOf c ns r hc
      refine ⟨c1 :: rest, ?_, ?_⟩
      · rw [spliceL, hs]
      · rw [bodyOfL, hb]
    | none =>
      rw [hc] at h
      obtain ⟨rest1, hs, hb⟩ := spliceL_of_bodyOfL rest ns cs h
      refine ⟨c :: rest1, ?_, ?_⟩
      · rw [spliceL, splice_none_of_bodyOf_none c ns hc, hs]
      · rw [bodyOfL, hc, hb]

end

/-- The plan-body loop succeeds exactly with the concatenation of the
per-instance element batches, in plan order. -/
theorem processBody_forall2 (components : List (String × String))
    (pf : String → Option (List XNode)) :
    ∀ {l : List ComponentInstance} {es : List (List XNode)},
      List.Forall₂ (fun i e => addComponentToBody components pf i = Except.ok e) l es →
      processBody components pf l = Except.ok es.flatten := by
  intro l es h
  induction h with
  | nil => rfl
  | @cons i e l1 es1 h1 _ ih =>
    rw [processBody, h1, ih, List.flatten_cons]

/-- Core characterization of the assembly loop: when every instance's own
fragment parses, the assembled tree's body is the shell body's children
followed by each instance's own elements, in plan order — and nothing
else: in particular no `children` entry of any props map contributes any
element. -/
theorem assembleTree_ok (components : List (String × String))
    (pf : String → Option (List XNode)) (doc : XNode) (bcs : List XNode)
    {l : List ComponentInstance} {es : List (List XNode)}
    (hall : List.Forall₂ (fun i e => addComponentToBody components pf i = Except.ok e) l es)
    (hbody : bodyOf doc = some bcs) :
    ∃ doc2, assembleTree components pf doc l = Except.ok doc2 ∧
      bodyOf doc2 = some (bcs ++ es.flatten) := by
  obtain ⟨doc2, hs, hb⟩ := splice_of_bodyOf doc es.flatten bcs hbody
  refine ⟨doc2, ?_, hb⟩
  rw [assembleTree, hbody, processBody_forall2 components pf hall]
  show (match splice es.flatten doc with
    | some doc3 => Except.ok doc3
    | none => Except.error AErr.noBody) = Except.ok doc2
  rw [hs]

/-- Code points identify characters. -/
theorem charToNat_inj : Function.Injective Char.toNat := by
  intro a b h
  exact Char.eq_of_val_eq (UInt32.ext h)

/-- The byte encoding of entry paths is injective. -/
theorem strBytes_inj : Function.Injective strBytes := by
  intro s1 s2 h
  have hdata : s1.data = s2.data := List.map_injective_iff.mpr charToNat_inj h
  cases s1; cases s2; exact congrArg String.mk hdata

/-- Zip streams determine their entry sequences: the length-prefixed
entry encoding concatenates injectively, so two serialized documents are
byte-for-byte equal exactly when the zip writer received the same entries
with the same contents in the same order. -/
theorem ToBytes_inj : ∀ (d1 d2 : InMemoryDocx), ToBytes d1 = ToBytes d2 → d1 = d2 := by
  intro d1
  induction d1 with
  | nil =>
    intro d2 h
    cases d2 with
    | nil => rfl
    | cons e2 t2 =>
      exfalso
      have : (0 : Nat) = (encodeEntry e2 ++ ToBytes t2).length := by
        have h0 : ToBytes (e2 :: t2) = encodeEntry e2 ++ ToBytes t2 := by
          rw [ToBytes, List.map_cons, List.flatten_cons]; rfl
        rw [← h0, ← h]; rfl
      rw [encodeEntry] at this
      simp at this
  | cons e1 t1 ih =>
    intro d2 h
    cases d2 with
    | nil =>
      exfalso
      have : (encodeEntry e1 ++ ToBytes t1).length = (0 : Nat) := by
        have h0 : ToBytes (e1 :: t1) = encodeEntry e1 ++ ToBytes t1 := by
          rw [ToBytes, List.map_cons, List.flatten_cons]; rfl
        rw [← h0, h]; rfl
      rw [encodeEntry] at this
      simp at this
    | cons e2 t2 =>
      have h0 : encodeEntry e1 ++ ToBytes t1 = encodeEntry e2 ++ ToBytes t2 := by
        have ha : ToBytes (e1 :: t1) = encodeEntry e1 ++ ToBytes t1 := by
          rw [ToBytes, List.map_cons, List.flatten_cons]; rfl
        have hb : ToBytes (e2 :: t2) = encodeEntry e2 ++ ToBytes t2 := by
          rw [ToBytes, List.map_cons, List.flatten_cons]; rfl
        rw [← ha, ← hb, h]
      obtain ⟨p1, c1⟩ := e1
      obtain ⟨p2, c2⟩ := e2
      rw [encodeEntry, encodeEntry] at h0
      simp only [List.cons_append] at h0
      obtain ⟨hlen, htail⟩ := List.cons.injEq .. ▸ h0
      rw [List.append_assoc, List.append_assoc] at htail
      obtain ⟨hpath, hrest⟩ := List.append_inj htail hlen
      obtain rfl : p1 = p2 := strBytes_inj hpath
      simp only [List.cons_append] at hrest
      obtain ⟨hclen, hrest2⟩ := List.cons.injEq .. ▸ hrest
      obtain ⟨hcont, hbytes⟩ := List.append_inj hrest2 hclen
      obtain rfl : c1 = c2 := hcont
      rw [ih t2 hbytes]

/-- Cloning only allocates: the heap after `CloneH` extends the old heap. -/
theorem CloneH_bufs : ∀ (shell : DocxRef) (h : Heap),
    ∃ ext, (CloneH h shell).1.bufs = h.bufs ++ ext := by
  intro shell
  induction shell with
  | nil => intro h; exact ⟨[], by simp [CloneH]⟩
  | cons pa rest ih =>
    intro h
    obtain ⟨p, a⟩ := pa
    obtain ⟨ext, hext⟩ := ih ⟨h.bufs ++ [deref h a]⟩
    refine ⟨[deref h a] ++ ext, ?_⟩
    show (CloneH ⟨h.bufs ++ [deref h a]⟩ rest).1.bufs = _
    rw [hext, List.append_assoc]

/-- Reading below the old heap bound is unaffected by later allocations. -/
theorem deref_append (h : Heap) (ext : List (List Nat)) (a : Nat) (ha : a < h.bufs.length) :
    deref ⟨h.bufs ++ ext⟩ a = deref h a := by
  unfold deref
  exact List.getD_append _ _ _ _ ha

/-- Freshness of the clone: every address handed out by `CloneH` is at or
above the old heap bound, so the clone aliases no pre-existing buffer (in
particular none of the canonical shell's). -/
theorem CloneH_fresh : ∀ (shell : DocxRef) (h : Heap),
    ∀ pa ∈ (CloneH h shell).2, h.bufs.length ≤ pa.2 := by
  intro shell
  induction shell with
  | nil => intro h pa hpa; simp [CloneH] at hpa
  | cons e rest ih =>
    intro h pa hpa
    obtain ⟨p, a⟩ := e
    have hstep : (CloneH h ((p, a) :: rest)).2
        = (p, h.bufs.length) :: (CloneH ⟨h.bufs ++ [deref h a]⟩ rest).2 := rfl
    rw [hstep] at hpa
    cases hpa with
    | head => exact Nat.le_refl _
    | tail _ htail =>
      have := ih ⟨h.bufs ++ [deref h a]⟩ pa htail
      simp only [List.length_append, List.length_cons, List.length_nil] at this
      omega

/-- Deep-copy correctness of `CloneH`: on any heap where the source map's
addresses are live, the clone maps the same paths, in the same order, to
buffers holding the same bytes. -/
theorem CloneH_copy : ∀ (shell : DocxRef) (h : Heap),
    (∀ pa ∈ shell, pa.2 < h.bufs.length) →
    (CloneH h shell).2.map (fun pa => (pa.1, deref (CloneH h shell).1 pa.2))
      = shell.map (fun pa => (pa.1, deref h pa.2)) := by
  intro shell
  induction shell with
  | nil => intro h _; rfl
  | cons e rest ih =>
    intro h hv
    obtain ⟨p, a⟩ := e
    have hlive : a < h.bufs.length := hv (p, a) (List.mem_cons_self _ _)
    set h1 : Heap := ⟨h.bufs ++ [deref h a]⟩ with hh1
    have hstep2 : (CloneH h ((p, a) :: rest)).2
        = (p, h.bufs.length) :: (CloneH h1 rest).2 := rfl
    have hstep1 : (CloneH h ((p, a) :: rest)).1 = (CloneH h1 rest).1 := rfl
    rw [hstep1, hstep2, List.map_cons, List.map_cons]
    obtain ⟨ext, hext⟩ := CloneH_bufs rest h1
    have hh1len : h.bufs.length < h1.bufs.length := by
      rw [hh1]; simp
    have hhead : deref (CloneH h1 rest).1 h.bufs.length = deref h a := by
      have hheap : (CloneH h1 rest).1 = ⟨h1.bufs ++ ext⟩ := by
        rw [← hext]
      rw [hheap, deref_append h1 ext _ hh1len]
      show (h.bufs ++ [deref h a]).getD h.bufs.length [] = _
      rw [List.getD_append_right _ _ _ _ (Nat.le_refl _)]
      simp
    rw [hhead]
    have hrest := ih h1 (fun pa hpa => by
      have := hv pa (List.mem_cons_of_mem _ hpa)
      have : pa.2 < h.bufs.length := this
      rw [hh1]; simp only [List.length_append, List.length_cons, List.length_nil]; omega)
    rw [hrest]
    have : ∀ pa ∈ rest, (pa.1, deref h1 pa.2) = (pa.1, deref h pa.2) := by
      intro pa hpa
      have hl : pa.2 < h.bufs.length := hv pa (List.mem_cons_of_mem _ hpa)
      rw [hh1, deref_append h [deref h a] _ hl]
    rw [List.map_congr_left this]

/-- The assembly path only allocates: whatever it returns, the heap after
`AssembleDocumentH` extends the heap before it, so no pre-existing buffer
— in particular no byte of the canonical shell — is ever written. -/
theorem AssembleDocumentH_bufs (h : Heap) (shell : DocxRef)
    (components : List (String × String)) (et : Etree) (plan : DocumentPlan) :
    ∃ ext, (AssembleDocumentH h shell components et plan).1.bufs = h.bufs ++ ext := by
  obtain ⟨ext, hext⟩ := CloneH_bufs shell h
  unfold AssembleDocumentH
  rcases hcl : CloneH h shell with ⟨h1, workingDoc⟩
  rw [hcl] at hext
  simp only
  split
  · exact ⟨ext, hext⟩
  · split
    · exact ⟨ext, hext⟩
    · split
      · exact ⟨ext, hext⟩
      · next doc2 heq =>
        refine ⟨ext ++ [et.writeDoc doc2], ?_⟩
        show h1.bufs ++ [et.writeDoc doc2] = _
        rw [hext, List.append_assoc]

/-! Claim theorems. -/

/-- C1 (counterexample): the claim says a `children` array in a parent's
props is recursively rendered and its elements appended right after the
parent's. On a concrete plan whose parent instance carries one child in
`props.children` — with both templates loaded and both fragments parseable
— the assembled body holds exactly the parent's element; the claim would
require `[c1ParentElem, c1ChildElem]` instead, which the second conjunct
distinguishes. -/
theorem c1_counterexample :
    assembleTree c1Components c1Pf c1Doc [c1Parent]
      = Except.ok (XNode.elem "w:document" [] [XNode.elem "w:body" [] [c1ParentElem]]) ∧
    [c1ParentElem] ≠ [c1ParentElem, c1ChildElem] := by
  constructor
  · rfl
  · intro h
    exact absurd (congrArg List.length h) (by decide)

/-- C1 (amended): `AssembleDocument` performs no recursion into
`props.children`: whenever every instance's own fragment resolves, the
assembled body is the shell body's children followed by exactly each
instance's own rendered elements in plan order — a `children` entry
contributes nothing structurally (it reaches the renderer as an ordinary
prop, see C5). -/
theorem c1_children_ignored (components : List (String × String))
    (pf : String → Option (List XNode)) (doc : XNode) (bcs : List XNode)
    {l : List ComponentInstance} {es : List (List XNode)}
    (hall : List.Forall₂ (fun i e => addComponentToBody components pf i = Except.ok e) l es)
    (hbody : bodyOf doc = some bcs) :
    ∃ doc2, assembleTree components pf doc l = Except.ok doc2 ∧
      bodyOf doc2 = some (bcs ++ es.flatten) :=
  assembleTree_ok components pf doc bcs hall hbody

/-- C1 (witness): the amended theorem applied to the children plan. -/
theorem c1_witness :
    (List.Forall₂ (fun i e => addComponentToBody c1Components c1Pf i = Except.ok e)
        [c1Parent] [[c1ParentElem]] ∧ bodyOf c1Doc = some []) ∧
    (∃ doc2, assembleTree c1Components c1Pf c1Doc [c1Parent] = Except.ok doc2 ∧
      bodyOf doc2 = some ([] ++ [[c1ParentElem]].flatten)) :=
  ⟨⟨.cons rfl .nil, rfl⟩, c1_children_ignored c1Components c1Pf c1Doc [] (.cons rfl .nil) rfl⟩

/-- C2 (counterexample): the same shell map (the two entry lists are
permutations of one another, i.e. equal as Go maps) assembled with the
same plan, components and etree produces different byte streams when the
map's iteration order presents the entries differently — `ToBytes` ranges
over the map, so byte-for-byte identity across runs is not guaranteed. -/
theorem c2_counterexample :
    List.Perm c2ShellA c2ShellB ∧
    Engine.Assemble ⟨c2ShellA, []⟩ c2Et c2Plan ≠ Engine.Assemble ⟨c2ShellB, []⟩ c2Et c2Plan := by
  constructor
  · decide
  · decide

/-- C2 (amended): assembly introduces no timestamps and no random
identifiers — the serialized stream is determined by (and determines) the
exact entry sequence handed to the zip writer; two runs are byte-for-byte
identical exactly when map iteration presents the same entry sequence,
which Go does not fix for maps with more than one entry. -/
theorem c2_serialization_deterministic (d1 d2 : InMemoryDocx) :
    ToBytes d1 = ToBytes d2 ↔ d1 = d2 :=
  ⟨ToBytes_inj d1 d2, fun h => h ▸ rfl⟩

/-- C2 (witness): the amended theorem at the counterexample's two entry
orders. -/
theorem c2_witness : ToBytes c2ShellA = ToBytes c2ShellB ↔ c2ShellA = c2ShellB :=
  c2_serialization_deterministic c2ShellA c2ShellB

/-- C3 (counterexample): the claim says `Validate` rejects `{"body": []}`;
it does not — the rule set `body: [...#ComponentInstance]` admits the
empty list, so validation succeeds. -/
theorem c3_counterexample : ¬ (Validate emptyBodyPlan = false) := by decide

/-- C3 (amended): a plan with an empty `body` array passes validation
(for any `doc_props.filename`): the rule set imposes no non-empty-body
constraint; the empty-body rejection in this repository lives in the
older HTTP handler as a hardcoded check, not in the validator. -/
theorem c3_empty_body_accepted (fname : String) :
    Validate (Val.vobj [("doc_props", Val.vobj [("filename", Val.vstr fname)]),
      ("body", Val.varr [])]) = true := rfl

/-- C4 (code evaluated at the failing input): the plan of
`validator_test.go`'s `MissingDocumentTitle` case — one `DocumentSubject`
instance, no `DocumentTitle` — passes validation, because `rules.cue`
contains no whole-plan title rule; the repository's own tests require
`valid=false` here. -/
theorem c4_missing_title_accepted : Validate missingTitlePlan = true := by decide

/-- C5 (counterexample): the claim says a `\x7b\x7b children \x7d\x7d`
placeholder is never replaced by the stringified children array; rendering
that exact placeholder against a props map holding a concrete `children`
array does replace it with the escaped `fmt`-stringification, which
differs from the untouched template. -/
theorem c5_counterexample :
    RenderComponent childrenTemplate [("children", c5Children)]
      = "[map[component:Child props:map[]]]" ∧
    ("[map[component:Child props:map[]]]" : String) ≠ childrenTemplate := by
  constructor
  · decide
  · decide

/-- C5 (amended): `children` is passed to the renderer like any other
prop — `addComponentToBody` hands the full props map to
`RenderComponent`, so for every children value a
`\x7b\x7b children \x7d\x7d` placeholder is substituted by the XML-escaped
stringified value; no structural exclusion of the key happens. -/
theorem c5_children_substituted (c : Val) :
    RenderComponent childrenTemplate [("children", c)] = EscapeString (goFmt c) :=
  render_single "children" c

/-- C6 (counterexample): the claim says whitespace around the key is
tolerated, e.g. that `\x7b\x7bkey\x7d\x7d` is also substituted; the code
builds only the exact pattern `\x7b\x7b key \x7d\x7d`, so the space-less
placeholder is left verbatim instead of becoming `value`. -/
theorem c6_counterexample :
    RenderComponent "\x7b\x7bkey\x7d\x7d" [("key", Val.vstr "value")] = "\x7b\x7bkey\x7d\x7d" ∧
    ("\x7b\x7bkey\x7d\x7d" : String) ≠ "value" := by
  constructor
  · decide
  · decide

/-- C6 (amended): substitution applies to the exact single-space form
`\x7b\x7b key \x7d\x7d` only — the space-less variant is untouched — and
is a single simultaneous pass over one snapshot of the props: the
substituted value is emitted verbatim, so a value that itself contains a
placeholder token is never re-substituted (first conjunct with the value
instantiated to the placeholder itself; third conjunct shows it
concretely). -/
theorem c6_exact_placeholder_single_pass :
    (∀ (k : String) (v : Val),
      RenderComponent (placeholderOf k) [(k, v)] = EscapeString (goFmt v)) ∧
    (∀ (k : String) (v : Val),
      RenderComponent ("\x7b\x7b" ++ k ++ "\x7d\x7d") [(k, v)] = "\x7b\x7b" ++ k ++ "\x7d\x7d") ∧
    RenderComponent (placeholderOf "x") [("x", Val.vstr (placeholderOf "x"))] = placeholderOf "x" :=
  ⟨render_single, render_nowhitespace, by decide⟩

/-- C7: every substituted value is passed through `html.EscapeString`
before insertion (second conjunct: what rendering inserts for a prop is
exactly the escaped stringification), and escaped text obeys the XML
output discipline — no raw `<`, `>`, `"`, `'`, and every `&` opening one
of the five emitted entities — so a prop value containing `<`, `&` or `>`
cannot break the markup around it; moreover the escaped text
entity-decodes back to exactly the original value (round trip), so the
value survives as text content. -/
theorem c7_escaping_correctness :
    (∀ v : Val, wellEscaped (EscapeString (goFmt v)).data = true) ∧
    (∀ v : Val, unescapeList (EscapeString (goFmt v)).data = (goFmt v).data) ∧
    (∀ (k : String) (v : Val),
      RenderComponent (placeholderOf k) [(k, v)] = EscapeString (goFmt v)) := by
  refine ⟨?_, ?_, render_single⟩
  · intro v
    show wellEscaped (escapeList (goFmt v).data) = true
    exact escape_wellEscaped _
  · intro v
    show unescapeList (escapeList (goFmt v).data) = (goFmt v).data
    exact unescape_escape _

/-- C8: for a plan `[A, B, C]` of leaf instances whose fragments resolve
to element batches `a`, `b`, `c`, assembly succeeds and the final body is
the shell body's pre-existing children followed by `a`, then `b`, then
`c` — plan order, after the existing children, however the component map
iterates internally (the conclusion is fixed by the per-instance lookup
results alone). -/
theorem c8_order_preservation (components : List (String × String))
    (pf : String → Option (List XNode)) (doc : XNode) (A B C : ComponentInstance)
    (a b c bcs : List XNode)
    (hA : addComponentToBody components pf A = Except.ok a)
    (hB : addComponentToBody components pf B = Except.ok b)
    (hC : addComponentToBody components pf C = Except.ok c)
    (hbody : bodyOf doc = some bcs) :
    ∃ doc2, assembleTree components pf doc [A, B, C] = Except.ok doc2 ∧
      bodyOf doc2 = some (bcs ++ a ++ b ++ c) := by
  have hall : List.Forall₂ (fun i e => addComponentToBody components pf i = Except.ok e)
      [A, B, C] [a, b, c] := .cons hA (.cons hB (.cons hC .nil))
  obtain ⟨doc2, h1, h2⟩ := assembleTree_ok components pf doc bcs hall hbody
  refine ⟨doc2, h1, ?_⟩
  rw [h2]
  simp [List.append_assoc]

/-- C8 (witness): three copies of a leaf instance appended after the
body's pre-existing child. -/
theorem c8_witness :
    (addComponentToBody w8Components w8Pf w8Inst = Except.ok [w8Elem] ∧
      bodyOf w8Doc = some [XNode.text "pre"]) ∧
    (∃ doc2, assembleTree w8Components w8Pf w8Doc [w8Inst, w8Inst, w8Inst] = Except.ok doc2 ∧
      bodyOf doc2 = some ([XNode.text "pre"] ++ [w8Elem] ++ [w8Elem] ++ [w8Elem])) :=
  ⟨⟨rfl, rfl⟩,
   c8_order_preservation w8Components w8Pf w8Doc w8Inst w8Inst w8Inst
     [w8Elem] [w8Elem] [w8Elem] [XNode.text "pre"] rfl rfl rfl rfl⟩

/-- C9: a plan whose body contains an instance naming a component outside
the five `#AllComponentNames` literals fails validation — the disjunction
admits no other name and there is no fallback shape. -/
theorem c9_unknown_component_rejected (planFields : List (String × Val)) (insts : List Val)
    (instFields : List (String × Val)) (name : String)
    (hbody : List.lookup "body" planFields = some (Val.varr insts))
    (hmem : Val.vobj instFields ∈ insts)
    (hcomp : List.lookup "component" instFields = some (Val.vstr name))
    (hunknown : AllComponentNames.contains name = false) :
    Validate (Val.vobj planFields) = false := by
  have hinst : checkInstance (Val.vobj instFields) = false := by
    rw [checkInstance, hcomp]
    have hn : ¬ name ∈ AllComponentNames := by simpa using hunknown
    simp [hn]
  have hall : insts.all checkInstance = false := by
    rw [Bool.eq_false_iff]
    intro hc
    have := List.all_eq_true.mp hc _ hmem
    rw [hinst] at this
    exact Bool.false_ne_true this
  rw [Validate, hbody]
  simp [hall]

/-- C9 (witness): the unknown name `Bogus` is rejected. -/
theorem c9_witness :
    (List.lookup "body" c9wPlanFields = some (Val.varr [Val.vobj c9wInstFields]) ∧
      Val.vobj c9wInstFields ∈ [Val.vobj c9wInstFields] ∧
      List.lookup "component" c9wInstFields = some (Val.vstr "Bogus") ∧
      AllComponentNames.contains "Bogus" = false) ∧
    Validate (Val.vobj c9wPlanFields) = false :=
  ⟨⟨rfl, List.mem_singleton.mpr rfl, rfl, rfl⟩,
   c9_unknown_component_rejected c9wPlanFields [Val.vobj c9wInstFields] c9wInstFields "Bogus"
     rfl (List.mem_singleton.mpr rfl) rfl rfl⟩

/-- C10: assembly never mutates pre-existing state, for every engine
state, plan and etree collaborator and whether it returns a document or
an error: (1) the heap after `AssembleDocumentH` extends the heap before
it, so every pre-existing buffer — in particular every byte of the
canonical shell, at whatever addresses it holds — is unchanged; (2) every
buffer of the per-request clone is freshly allocated at or above the old
heap bound, so the clone aliases nothing pre-existing; (3) the clone maps
the same paths in the same order to buffers holding the same bytes. The
component map is a plain immutable value the assembly path only reads. -/
theorem c10_no_mutation (h : Heap) (shell : DocxRef) (components : List (String × String))
    (et : Etree) (plan : DocumentPlan) :
    (AssembleDocumentH h shell components et plan).1.bufs.take h.bufs.length = h.bufs ∧
    (CloneH h shell).2.all (fun pa => Nat.ble h.bufs.length pa.2) = true ∧
    (shell.all (fun pa => Nat.blt pa.2 h.bufs.length) = true →
      (CloneH h shell).2.map (fun pa => (pa.1, deref (CloneH h shell).1 pa.2))
        = shell.map (fun pa => (pa.1, deref h pa.2))) := by
  refine ⟨?_, ?_, ?_⟩
  · obtain ⟨ext, hext⟩ := AssembleDocumentH_bufs h shell components et plan
    rw [hext, List.take_left]
  · rw [List.all_eq_true]
    intro pa hpa
    simpa using CloneH_fresh shell h pa hpa
  · intro hv
    apply CloneH_copy
    intro pa hpa
    simpa using List.all_eq_true.mp hv pa hpa

/-- C10 (witness): the no-mutation theorem at a concrete heap and shell. -/
theorem c10_witness :
    (w10Shell.all (fun pa => Nat.blt pa.2 w10Heap.bufs.length) = true) ∧
    (CloneH w10Heap w10Shell).2.map (fun pa => (pa.1, deref (CloneH w10Heap w10Shell).1 pa.2))
      = w10Shell.map (fun pa => (pa.1, deref w10Heap pa.2)) :=
  ⟨by decide, (c10_no_mutation w10Heap w10Shell [] w10Et w10Plan).2.2 (by decide)⟩
